import Mathlib

/-!
# A verified model of the `Chat.tsx` streaming consumer

A shallow embedding of the send operation of `src/Chat.tsx`: the
component state it reads, the SSE-style stream event decoder of its read
loop (UTF-8 streaming decode, line buffering, `data:` frames, the
`[DONE]` sentinel, JSON payload parsing, delta extraction), the
conversation accumulator, and the error and no-body fallback paths.
Text is `List Char`, transport bytes are `List Nat`, and the decoded
events are recorded as a ghost trace at the sites where the source folds
them into the conversation.  Theorems at the end settle the spec's
claims about this code.
-/

namespace VibeChat

/-- Characters treated as whitespace by ECMAScript `String.prototype.trim`
and by the regex class `\s` (the ASCII whitespace, NBSP, the Unicode
space separators, the line separators, and the BOM). -/
def isJsSpace (c : Char) : Bool :=
  c.toNat ∈ [0x09, 0x0A, 0x0B, 0x0C, 0x0D, 0x20, 0xA0, 0x1680,
    0x2000, 0x2001, 0x2002, 0x2003, 0x2004, 0x2005, 0x2006, 0x2007,
    0x2008, 0x2009, 0x200A, 0x2028, 0x2029, 0x202F, 0x205F, 0x3000, 0xFEFF]

/-- Model of `line.trim()`: drop JS whitespace from both ends. -/
def jsTrim (l : List Char) : List Char :=
  ((l.dropWhile isJsSpace).reverse.dropWhile isJsSpace).reverse

/-- Split a character buffer at its first newline, as
`buffer.indexOf('\n')` / `buffer.slice` do: returns the first line
(without the newline) and the remainder, or `none` when the buffer
holds no newline. -/
def splitLine : List Char → Option (List Char × List Char)
  | [] => none
  | c :: cs =>
    if c = '\n' then some ([], cs)
    else (splitLine cs).map (fun p => (c :: p.1, p.2))

theorem splitLine_length {cs l r : List Char} (h : splitLine cs = some (l, r)) :
    l.length + r.length + 1 = cs.length := by
  induction cs generalizing l r with
  | nil => simp [splitLine] at h
  | cons c cs ih =>
    by_cases hc : c = '\n'
    · rw [splitLine, if_pos hc] at h
      cases h
      simp
    · rw [splitLine, if_neg hc] at h
      cases hp : splitLine cs with
      | none => rw [hp] at h; exact Option.noConfusion h
      | some p =>
        rw [hp] at h
        simp only [Option.map_some', Option.some.injEq, Prod.mk.injEq] at h
        obtain ⟨h1, h2⟩ := h
        have := ih (l := p.1) (r := p.2) (by rw [hp])
        subst h1; subst h2
        simp only [List.length_cons]
        omega

/-! ### JSON values and `JSON.parse`

The decoder calls `JSON.parse` on each frame payload and probes the result
with optional chaining.  `Json` models the parsed ECMAScript value; numbers
keep their literal token (the claims never observe numeric values). -/

inductive Json where
  | null : Json
  | bool (b : Bool) : Json
  | num (tok : List Char) : Json
  | str (s : List Char) : Json
  | arrNil : Json
  | arrCons (hd : Json) (tl : Json) : Json
  | objNil : Json
  | objCons (k : List Char) (v : Json) (tl : Json) : Json
  deriving DecidableEq

/-- JSON insignificant whitespace (exactly space, tab, LF, CR). -/
def isJsonWs (c : Char) : Bool :=
  c = ' ' || c = '\t' || c = '\n' || c = '\r'

def skipWs (cs : List Char) : List Char := cs.dropWhile isJsonWs

def hexVal (c : Char) : Option Nat :=
  if '0' ≤ c ∧ c ≤ '9' then some (c.toNat - '0'.toNat)
  else if 'a' ≤ c ∧ c ≤ 'f' then some (c.toNat - 'a'.toNat + 10)
  else if 'A' ≤ c ∧ c ≤ 'F' then some (c.toNat - 'A'.toNat + 10)
  else none

/-- Unicode replacement character, used for lone surrogates in string
escapes (modelling how such UTF-16 units surface as text). -/
def replChar : Char := Char.ofNat 0xFFFD

/-- Body of a JSON string after the opening quote, with fuel (each step
consumes at least one character, so `length + 1` fuel always suffices):
handles the escape sequences of the JSON grammar (including `\uXXXX` with
surrogate-pair combination, lone surrogates becoming the replacement
character) and rejects raw control characters, as `JSON.parse` does.
Returns the string contents and the input remaining after the closing
quote. -/
def parseStringLoop : Nat → List Char → Option (List Char × List Char)
  | 0, _ => none
  | _ + 1, [] => none
  | f + 1, c :: r =>
    if c = '"' then some ([], r)
    else if c = '\\' then
      match r with
      | 'u' :: a :: b :: c2 :: d :: r3 =>
        match hexVal a, hexVal b, hexVal c2, hexVal d with
        | some ha, some hb, some hc, some hd =>
          let n := ((ha * 16 + hb) * 16 + hc) * 16 + hd
          if 0xD800 ≤ n ∧ n ≤ 0xDBFF then
            -- high surrogate: try to combine with a following \uDC00–\uDFFF
            match r3 with
            | '\\' :: 'u' :: a2 :: b2 :: c3 :: d2 :: r4 =>
              match hexVal a2, hexVal b2, hexVal c3, hexVal d2 with
              | some ha2, some hb2, some hc2, some hd2 =>
                let m := ((ha2 * 16 + hb2) * 16 + hc2) * 16 + hd2
                if 0xDC00 ≤ m ∧ m ≤ 0xDFFF then
                  (parseStringLoop f r4).map (fun p =>
                    (Char.ofNat (0x10000 + (n - 0xD800) * 0x400 + (m - 0xDC00)) :: p.1, p.2))
                else
                  (parseStringLoop f r3).map (fun p => (replChar :: p.1, p.2))
              | _, _, _, _ => (parseStringLoop f r3).map (fun p => (replChar :: p.1, p.2))
            | _ => (parseStringLoop f r3).map (fun p => (replChar :: p.1, p.2))
          else if 0xDC00 ≤ n ∧ n ≤ 0xDFFF then
            (parseStringLoop f r3).map (fun p => (replChar :: p.1, p.2))
          else
            (parseStringLoop f r3).map (fun p => (Char.ofNat n :: p.1, p.2))
        | _, _, _, _ => none
      | e :: r2 =>
        let esc : Option Char :=
          if e = '"' then some '"'
          else if e = '\\' then some '\\'
          else if e = '/' then some '/'
          else if e = 'b' then some (Char.ofNat 0x08)
          else if e = 'f' then some (Char.ofNat 0x0C)
          else if e = 'n' then some '\n'
          else if e = 'r' then some '\r'
          else if e = 't' then some '\t'
          else none
        match esc with
        | some ch => (parseStringLoop f r2).map (fun p => (ch :: p.1, p.2))
        | none => none
      | [] => none
    else if c.toNat < 0x20 then none
    else (parseStringLoop f r).map (fun p => (c :: p.1, p.2))

def parseStringBody (cs : List Char) : Option (List Char × List Char) :=
  parseStringLoop (cs.length + 1) cs

/-- Number token of the JSON grammar: `-? (0 | [1-9][0-9]*) frac? exp?`.
Returns the token characters and the remaining input. -/
def parseNumberToken (cs : List Char) : Option (List Char × List Char) :=
  let (neg, cs1) :=
    match cs with
    | '-' :: r => ((['-'] : List Char), r)
    | _ => (([] : List Char), cs)
  let intPart : Option (List Char × List Char) :=
    match cs1 with
    | '0' :: r => some (['0'], r)
    | c :: r =>
      if c.isDigit ∧ c ≠ '0' then
        some (c :: r.takeWhile Char.isDigit, r.dropWhile Char.isDigit)
      else none
    | [] => none
  match intPart with
  | none => none
  | some (ip, r1) =>
    let (fp, r2) :=
      match r1 with
      | '.' :: rr =>
        let ds := rr.takeWhile Char.isDigit
        if ds.isEmpty then (none, r1)
        else (some ('.' :: ds), rr.dropWhile Char.isDigit)
      | _ => ((none : Option (List Char)), r1)
    match fp, r2 with
    | none, _ =>
      (parseExpPart r1).map (fun p => (neg ++ ip ++ p.1, p.2))
    | some f, rr =>
      (parseExpPart rr).map (fun p => (neg ++ ip ++ f ++ p.1, p.2))
where
  /-- Optional exponent part `([eE][+-]?[0-9]+)?`; returns its characters
  (possibly empty) and the rest.  A bare `e` with no digits is not part of
  the number, so the token ends before it. -/
  parseExpPart (cs : List Char) : Option (List Char × List Char) :=
    match cs with
    | e :: r =>
      if e = 'e' ∨ e = 'E' then
        let (sgn, r1) :=
          match r with
          | '+' :: rr => ((['+'] : List Char), rr)
          | '-' :: rr => ((['-'] : List Char), rr)
          | _ => (([] : List Char), r)
        let ds := r1.takeWhile Char.isDigit
        if ds.isEmpty then some ([], cs)
        else some (e :: sgn ++ ds, r1.dropWhile Char.isDigit)
      else some ([], cs)
    | [] => some ([], [])

mutual
/-- One JSON value at the front of the input (leading whitespace already
skipped); fuel bounds nesting depth. -/
def parseVal : Nat → List Char → Option (Json × List Char)
  | 0, _ => none
  | _ + 1, 'n' :: 'u' :: 'l' :: 'l' :: r => some (.null, r)
  | _ + 1, 't' :: 'r' :: 'u' :: 'e' :: r => some (.bool true, r)
  | _ + 1, 'f' :: 'a' :: 'l' :: 's' :: 'e' :: r => some (.bool false, r)
  | _ + 1, '"' :: r => (parseStringBody r).map (fun p => (.str p.1, p.2))
  | f + 1, '[' :: r =>
    match skipWs r with
    | ']' :: r2 => some (.arrNil, r2)
    | r2 => parseItems f r2
  | f + 1, '{' :: r =>
    match skipWs r with
    | '}' :: r2 => some (.objNil, r2)
    | r2 => parseMembers f r2
  | _ + 1, cs => (parseNumberToken cs).map (fun p => (.num p.1, p.2))

/-- Comma-separated array items up to the closing bracket, as an
`arrCons` chain. -/
def parseItems : Nat → List Char → Option (Json × List Char)
  | 0, _ => none
  | f + 1, cs =>
    match parseVal f cs with
    | none => none
    | some (v, r) =>
      match skipWs r with
      | ',' :: r2 => (parseItems f (skipWs r2)).map (fun p => (.arrCons v p.1, p.2))
      | ']' :: r2 => some (.arrCons v .arrNil, r2)
      | _ => none

/-- Comma-separated `"key": value` members up to the closing brace, as
an `objCons` chain. -/
def parseMembers : Nat → List Char → Option (Json × List Char)
  | 0, _ => none
  | f + 1, cs =>
    match cs with
    | '"' :: r =>
      match parseStringBody r with
      | none => none
      | some (k, r1) =>
        match skipWs r1 with
        | ':' :: r2 =>
          match parseVal f (skipWs r2) with
          | none => none
          | some (v, r3) =>
            match skipWs r3 with
            | ',' :: r4 => (parseMembers f (skipWs r4)).map (fun p => (.objCons k v p.1, p.2))
            | '}' :: r4 => some (.objCons k v .objNil, r4)
            | _ => none
        | _ => none
    | _ => none
end

/-- Model of `JSON.parse`: parse one value, allow surrounding whitespace,
require the whole input to be consumed; any violation of the grammar
yields `none` (the thrown `SyntaxError`). -/
def Json.parse (cs : List Char) : Option Json :=
  match parseVal (cs.length + 1) (skipWs cs) with
  | some (j, rest) => if (skipWs rest).isEmpty then some j else none
  | none => none

/-! ### Optional chaining over parsed values

`parsed?.choices?.[0]?.delta?.content` probes the parsed value with
optional chaining: property access on a non-object (or a missing
property, or `null`/`undefined`) short-circuits to nothing. -/

/-- Element of an `arrCons` chain at an index (`xs?.[i]` on an array). -/
def arrGet : Json → Nat → Option Json
  | .arrCons h _, 0 => some h
  | .arrCons _ t, n + 1 => arrGet t n
  | _, _ => none

/-- Property of an `objCons` chain; `JSON.parse` keeps the **last**
duplicate key, and our chains keep source order, so the last match wins. -/
def objLookupLast : Json → List Char → Option Json
  | .objCons k v t, key =>
    match objLookupLast t key with
    | some r => some r
    | none => if k = key then some v else none
  | _, _ => none

/-- `o?.k`: named-property access; anything but an object yields nothing. -/
def jget (j : Json) (key : List Char) : Option Json :=
  match j with
  | .objNil => none
  | .objCons _ _ _ => objLookupLast j key
  | _ => none

/-- `o?.[n]`: index access; arrays index positionally, plain objects via
the decimal string key (`o[0]` reads property `"0"` in ECMAScript). -/
def jidx (j : Json) (n : Nat) : Option Json :=
  match j with
  | .arrNil => none
  | .arrCons _ _ => arrGet j n
  | .objNil => none
  | .objCons _ _ _ => objLookupLast j (Nat.repr n).toList
  | _ => none

/-- `typeof v === 'string'` as an extraction. -/
def asStr : Json → Option (List Char)
  | .str s => some s
  | _ => none

def choicesKey : List Char := "choices".toList
def deltaKey : List Char := "delta".toList
def contentKey : List Char := "content".toList
def messageKey : List Char := "message".toList

/-- `parsed?.choices?.[0]?.delta?.content`, kept only when it is a string
(`typeof delta === 'string'`). -/
def extractDelta (j : Json) : Option (List Char) :=
  ((((jget j choicesKey).bind (fun c => jidx c 0)).bind
    (fun c => jget c deltaKey)).bind (fun c => jget c contentKey)).bind asStr

/-- `data.choices?.[0]?.message?.content` of the non-streamed fallback
parse, before the `?? '(no content)'` default. -/
def extractMsgContent (j : Json) : Option Json :=
  (((jget j choicesKey).bind (fun c => jidx c 0)).bind
    (fun c => jget c messageKey)).bind (fun c => jget c contentKey)

/-! ### Conversation data model -/

inductive Role where
  | system : Role
  | user : Role
  | assistant : Role
  deriving DecidableEq

structure Message where
  role : Role
  content : List Char
  deriving DecidableEq

def defaultSystemPromptText : List Char := "You are a helpful assistant.".toList

/-- Decoded events, recorded as a ghost trace exactly where the source
folds a delta into the pending message (`ContentDelta`) or recognises the
`[DONE]` sentinel (`Done`). -/
inductive Event where
  | contentDelta (t : List Char) : Event
  | done : Event
  deriving DecidableEq

def Event.isDone : Event → Bool
  | .done => true
  | _ => false

def deltaText : Event → List Char
  | .contentDelta t => t
  | .done => []

/-- Ordered concatenation of the delta texts of an event trace. -/
def joinDeltas (es : List Event) : List Char := (es.map deltaText).flatten

/-- The accumulator's view of the stream loop: the conversation array, the
`done` flag as set by the `[DONE]` sentinel, and the ghost event trace. -/
structure AccState where
  messages : List Message
  done : Bool
  events : List Event
  deriving DecidableEq

/-! ### The stream event decoder (lines 85–127 of `Chat.tsx`) -/

def dataMark : List Char := "data:".toList
def doneMark : List Char := "[DONE]".toList

/-- `line.replace(/^data:\s*/, '')` on a line already known to start with
`data:`: drop the marker and any following `\s` characters. -/
def stripData (line : List Char) : List Char :=
  (line.drop dataMark.length).dropWhile isJsSpace

/-- `setMessages` updater of the delta branch: copy the array and, when
the slot still holds an assistant message, append the delta to its
content (`(msg.content || '') + delta`). -/
def appendAt (ai : Nat) (t : List Char) (ms : List Message) : List Message :=
  match ms.get? ai with
  | none => ms
  | some m =>
    if m.role = Role.assistant then
      ms.set ai ⟨m.role, (if m.content.isEmpty then [] else m.content) ++ t⟩
    else ms

/-- One complete line extracted from the buffer (lines 96–125): trim it,
skip empty or non-`data:` lines, recognise the `[DONE]` sentinel, parse
the payload (parse failure is silently skipped), extract the first
choice's delta content, and append a non-empty string delta to the slot. -/
def processLine (ai : Nat) (rawLine : List Char) (acc : AccState) : AccState :=
  let line := jsTrim rawLine
  if line.isEmpty then acc
  else if dataMark.isPrefixOf line then
    let jsonStr := stripData line
    if jsonStr = doneMark then
      { acc with done := true, events := acc.events ++ [Event.done] }
    else
      match Json.parse jsonStr with
      | none => acc
      | some parsed =>
        match extractDelta parsed with
        | some t =>
          if t.isEmpty then acc
          else { acc with
                  messages := appendAt ai t acc.messages,
                  events := acc.events ++ [Event.contentDelta t] }
        | none => acc
  else acc

/-- The inner `while ((lineBreakIdx = buffer.indexOf('\n')) !== -1)` loop,
with explicit fuel (each iteration removes a line and its newline, so
`buffer.length` fuel always suffices — see `drain`): repeatedly slice a
complete line off the buffer and process it, stopping (the `break` on
`[DONE]`) as soon as a line sets the `done` flag.  Returns the remaining
buffer and the updated accumulator. -/
def drainFuel (ai : Nat) : Nat → List Char → AccState → List Char × AccState
  | 0, buffer, acc => (buffer, acc)
  | f + 1, buffer, acc =>
    match splitLine buffer with
    | none => (buffer, acc)
    | some (line, rest) =>
      let acc' := processLine ai line acc
      if acc'.done then (rest, acc') else drainFuel ai f rest acc'

/-- The inner line loop: `buffer.length` fuel is always enough, since
every iteration shortens the buffer by at least one character. -/
def drain (ai : Nat) (buffer : List Char) (acc : AccState) : List Char × AccState :=
  drainFuel ai buffer.length buffer acc

/-! ### The transport reader: streaming UTF-8 decoding

`new TextDecoder('utf-8')` with `{ stream: true }` implements the WHATWG
UTF-8 decoder: a per-byte state machine that carries the bytes of an
incomplete multi-byte sequence across `decode` calls and emits U+FFFD for
invalid input.  The final flush is never requested, so bytes of a
trailing incomplete sequence are silently dropped at end of stream. -/

structure Utf8State where
  codePoint : Nat
  needed : Nat
  seen : Nat
  lo : Nat
  hi : Nat
  deriving DecidableEq

def utf8Init : Utf8State := ⟨0, 0, 0, 0x80, 0xBF⟩

/-- WHATWG UTF-8 decoder, byte in start state (no sequence pending). -/
def procStart (b : Nat) : Utf8State × List Char :=
  if b ≤ 0x7F then (utf8Init, [Char.ofNat b])
  else if 0xC2 ≤ b ∧ b ≤ 0xDF then
    ({ codePoint := b % 32, needed := 1, seen := 0, lo := 0x80, hi := 0xBF }, [])
  else if 0xE0 ≤ b ∧ b ≤ 0xEF then
    ({ codePoint := b % 16, needed := 2, seen := 0,
       lo := if b = 0xE0 then 0xA0 else 0x80,
       hi := if b = 0xED then 0x9F else 0xBF }, [])
  else if 0xF0 ≤ b ∧ b ≤ 0xF4 then
    ({ codePoint := b % 8, needed := 3, seen := 0,
       lo := if b = 0xF0 then 0x90 else 0x80,
       hi := if b = 0xF4 then 0x8F else 0xBF }, [])
  else (utf8Init, [replChar])

/-- WHATWG UTF-8 decoder, one byte: continuation bytes inside the
boundaries extend the pending code point; a byte outside them emits a
replacement character and is reconsumed from the start state. -/
def procByte (s : Utf8State) (b : Nat) : Utf8State × List Char :=
  if s.needed = 0 then procStart b
  else if s.lo ≤ b ∧ b ≤ s.hi then
    let cp := s.codePoint * 64 + b % 64
    let seen := s.seen + 1
    if seen = s.needed then (utf8Init, [Char.ofNat cp])
    else ({ codePoint := cp, needed := s.needed, seen := seen, lo := 0x80, hi := 0xBF }, [])
  else
    let p := procStart b
    (p.1, replChar :: p.2)

/-- `decoder.decode(value, { stream: true })` from a carried state: fold
the byte chunk through the state machine, accumulating the decoded text. -/
def utf8DecodeFrom (s : Utf8State) (bytes : List Nat) : Utf8State × List Char :=
  bytes.foldl (fun p b => let q := procByte p.1 b; (q.1, p.2 ++ q.2)) (s, [])

/-! ### The outer read loop (lines 85–127) -/

/-- State carried across `reader.read()` suspensions: the decoder state,
the line buffer until the next newline, and the accumulator. -/
structure StreamState where
  dec : Utf8State
  buffer : List Char
  acc : AccState
  deriving DecidableEq

def initialStream (ms : List Message) : StreamState :=
  ⟨utf8Init, [], ⟨ms, false, []⟩⟩

/-- One iteration of `while (!done)` for a chunk the reader yielded:
decode it, append the text to the buffer, process complete lines. -/
def streamStep (ai : Nat) (ss : StreamState) (chunk : List Nat) : StreamState :=
  let d := utf8DecodeFrom ss.dec chunk
  let r := drain ai (ss.buffer ++ d.2) ss.acc
  ⟨d.1, r.1, r.2⟩

/-- The whole read loop over the reader's finite chunk sequence: once the
`[DONE]` sentinel set the `done` flag the loop exits and later chunks are
never read.  The reader's final `(done: true, value: undefined)` result
adds no text, so it needs no step of its own. -/
def runStream (ai : Nat) (chunks : List (List Nat)) (ss : StreamState) : StreamState :=
  chunks.foldl (fun s c => if s.acc.done then s else streamStep ai s c) ss

/-! ### The send operation (lines 41–137) -/

/-- A thrown ECMAScript error as the catch block observes it:
`e?.message` and the `String(e)` fallback used when the message is empty. -/
structure JsError where
  message : List Char
  asString : List Char
  deriving DecidableEq

/-- `e?.message || String(e)`. -/
def jsErrText (e : JsError) : List Char :=
  if e.message.isEmpty then e.asString else e.message

/-- The fetch outcome, covering every path the source distinguishes:
a rejected fetch; a non-ok response (its body text is read for the error
message); an ok response with a streamable body yielding byte chunks; an
ok response delivering some chunks and then a rejecting read; an ok
response without a streamable body (the `resp.json()` fallback). -/
inductive Resp where
  | netError (e : JsError) : Resp
  | httpError (status : Nat) (bodyText : List Char) : Resp
  | okStream (chunks : List (List Nat)) : Resp
  | okStreamFail (chunks : List (List Nat)) (e : JsError) : Resp
  | okNoBody (payloadText : List Char) : Resp
  deriving DecidableEq

/-- Component state read by `sendMessage`. -/
structure SendState where
  input : List Char
  apiKey : List Char
  messages : List Message
  busy : Bool
  deriving DecidableEq

/-- Observable outcome of one `sendMessage` call: the final conversation,
input box and busy flag, whether a request was issued, whether the busy
flag was set for the operation (ghost), and the decoded-event trace
(ghost). -/
structure SendResult where
  messages : List Message
  input : List Char
  busy : Bool
  requestIssued : Bool
  busySet : Bool
  events : List Event
  deriving DecidableEq

/-- The message of the `Error` thrown on a non-ok response:
`HTTP (status): (errText)` (template literal of line 72). -/
def httpErrMsg (status : Nat) (bodyText : List Char) : List Char :=
  "HTTP ".toList ++ (Nat.repr status).toList ++ ": ".toList ++ bodyText

/-- The fixed human-readable label of the catch block's replacement text
(line 131). -/
def errLabel : List Char := "Ошибка запроса: ".toList

/-- Literal placeholder of the fallback extraction (line 80). -/
def noContentText : List Char := "(no content)".toList

/-- `prev.map((m, i) => i === idx ? { ...m, content: txt } : m)`:
overwrite (never append to) the content of the message at one index. -/
def setContentAt (idx : Nat) (txt : List Char) (ms : List Message) : List Message :=
  ms.mapIdx (fun i m => if i = idx then ⟨m.role, txt⟩ else m)

/-- The catch block (lines 128–133): overwrite the pending slot with the
fixed label and the failure's message text. -/
def overwriteError (ai : Nat) (e : JsError) (ms : List Message) : List Message :=
  setContentAt ai (errLabel ++ jsErrText e) ms

/-- `?? '(no content)'` after the fallback extraction: `undefined` and
`null` fall back to the placeholder; a string is used as is.  A non-string
non-nullish value would be stored raw by the source; we render it to text
(`jsonValText`) since our `content` is text — no claim exercises that
shape. -/
def fallbackText (o : Option Json) : List Char :=
  match o with
  | none => noContentText
  | some .null => noContentText
  | some (.str s) => s
  | some other => jsonValText other
where
  jsonValText : Json → List Char
    | .str s => s
    | .num tok => tok
    | .bool true => "true".toList
    | .bool false => "false".toList
    | .null => "null".toList
    | _ => []

/-- Modelled message of the `SyntaxError` that `resp.json()` raises on a
payload that is not valid JSON (the engine-defined wording is opaque to
the source; only its presence matters). -/
def jsonSyntaxError : JsError :=
  ⟨"Unexpected token".toList, "SyntaxError: Unexpected token".toList⟩

/-- The whole `sendMessage` callback as a function of the component state
and the fetch outcome.  Precondition failure (line 43) returns before any
mutation; otherwise the user message and the empty assistant placeholder
are appended, the request is issued, and the response is consumed by the
streaming loop, the no-body fallback, or the catch block; `finally`
clears the busy flag on every one of those paths. -/
def sendMessage (st : SendState) (resp : Resp) : SendResult :=
  let text := jsTrim st.input
  if text.isEmpty || st.apiKey.isEmpty then
    { messages := st.messages, input := st.input, busy := st.busy,
      requestIssued := false, busySet := false, events := [] }
  else
    let withUser := st.messages ++ [⟨Role.user, text⟩]
    let ai := withUser.length
    let ms := withUser ++ [⟨Role.assistant, []⟩]
    match resp with
    | .netError e =>
      { messages := overwriteError ai e ms, input := [], busy := false,
        requestIssued := true, busySet := true, events := [] }
    | .httpError status bodyText =>
      { messages := overwriteError ai ⟨httpErrMsg status bodyText,
          "Error: ".toList ++ httpErrMsg status bodyText⟩ ms,
        input := [], busy := false,
        requestIssued := true, busySet := true, events := [] }
    | .okStream chunks =>
      let fin := runStream ai chunks (initialStream ms)
      { messages := fin.acc.messages, input := [], busy := false,
        requestIssued := true, busySet := true, events := fin.acc.events }
    | .okStreamFail chunks e =>
      let fin := runStream ai chunks (initialStream ms)
      if fin.acc.done then
        -- the loop exited on the sentinel before the failing read
        { messages := fin.acc.messages, input := [], busy := false,
          requestIssued := true, busySet := true, events := fin.acc.events }
      else
        { messages := overwriteError ai e fin.acc.messages, input := [],
          busy := false, requestIssued := true, busySet := true,
          events := fin.acc.events }
    | .okNoBody payloadText =>
      match Json.parse payloadText with
      | some data =>
        { messages := setContentAt ai (fallbackText (extractMsgContent data)) ms,
          input := [], busy := false,
          requestIssued := true, busySet := true, events := [] }
      | none =>
        { messages := overwriteError ai jsonSyntaxError ms, input := [],
          busy := false, requestIssued := true, busySet := true, events := [] }

/-- ASCII text as transport bytes, for concrete stream scenarios. -/
def asciiBytes (s : String) : List Nat := s.toList.map Char.toNat

/-- No event follows a `Done` event in a trace (decidably). -/
def noEventAfterDone : List Event → Bool
  | [] => true
  | Event.done :: rest => rest.isEmpty
  | _ :: rest => noEventAfterDone rest

/-- Well-formedness of a reachable accumulator's trace: while the `done`
flag is down the trace holds no `Done`; once it is up, `Done` closes the
trace. -/
def accOk (acc : AccState) : Bool :=
  if acc.done then acc.events.getLast? = some Event.done && noEventAfterDone acc.events
  else acc.events.all (fun e => !e.isDone)

/-! ### Lemmas: line splitting -/

theorem splitLine_append_some {b t l r : List Char} (h : splitLine b = some (l, r)) :
    splitLine (b ++ t) = some (l, r ++ t) := by
  induction b generalizing l r with
  | nil => simp [splitLine] at h
  | cons c cs ih =>
    by_cases hc : c = '\n'
    · rw [splitLine, if_pos hc] at h
      cases h
      rw [List.cons_append, splitLine, if_pos hc]
    · rw [splitLine, if_neg hc] at h
      cases hp : splitLine cs with
      | none => rw [hp] at h; exact Option.noConfusion h
      | some p =>
        rw [hp] at h
        simp only [Option.map_some', Option.some.injEq, Prod.mk.injEq] at h
        obtain ⟨h1, h2⟩ := h
        subst h1; subst h2
        rw [List.cons_append, splitLine, if_neg hc, ih (l := p.1) (r := p.2) (by rw [hp])]
        rfl

theorem splitLine_none_notMem {b : List Char} (h : splitLine b = none) : '\n' ∉ b := by
  induction b with
  | nil => simp
  | cons c cs ih =>
    by_cases hc : c = '\n'
    · rw [splitLine, if_pos hc] at h; exact Option.noConfusion h
    · rw [splitLine, if_neg hc] at h
      cases hp : splitLine cs with
      | none =>
        intro hmem
        rcases List.mem_cons.mp hmem with h1 | h2
        · exact hc h1.symm
        · exact ih hp h2
      | some p => rw [hp] at h; exact Option.noConfusion h

theorem splitLine_none_of_notMem {b : List Char} (h : '\n' ∉ b) : splitLine b = none := by
  induction b with
  | nil => rfl
  | cons c cs ih =>
    have hc : c ≠ '\n' := fun e => h (e ▸ List.mem_cons_self c cs)
    rw [splitLine, if_neg hc, ih (fun m => h (List.mem_cons_of_mem c m))]
    rfl

theorem splitLine_none_append {b t : List Char} (h : splitLine b = none) :
    splitLine (b ++ t) = (splitLine t).map (fun p => (b ++ p.1, p.2)) := by
  induction b with
  | nil =>
    simp only [List.nil_append]
    cases hp : splitLine t with
    | none => rfl
    | some p => simp
  | cons c cs ih =>
    by_cases hc : c = '\n'
    · rw [splitLine, if_pos hc] at h; exact Option.noConfusion h
    · rw [splitLine, if_neg hc] at h
      cases hp : splitLine cs with
      | none =>
        rw [List.cons_append, splitLine, if_neg hc, ih hp]
        cases hq : splitLine t with
        | none => rfl
        | some q => simp
      | some p => rw [hp] at h; exact Option.noConfusion h

theorem splitLine_line_append {l B : List Char} (h : splitLine l = none) :
    splitLine (l ++ '\n' :: B) = some (l, B) := by
  rw [splitLine_none_append h]
  have : splitLine ('\n' :: B) = some ([], B) := by
    rw [splitLine, if_pos rfl]
  rw [this]
  simp

/-! ### Lemmas: single-line processing -/

theorem processLine_cases (ai : Nat) (l : List Char) (acc : AccState) :
    processLine ai l acc = acc
    ∨ processLine ai l acc = { acc with done := true, events := acc.events ++ [Event.done] }
    ∨ ∃ t, processLine ai l acc =
        { acc with messages := appendAt ai t acc.messages,
                   events := acc.events ++ [Event.contentDelta t] } ∧ ¬t.isEmpty := by
  rw [processLine]
  dsimp only
  repeat' split
  all_goals first
    | exact Or.inl rfl
    | exact Or.inr (Or.inl rfl)
    | exact Or.inr (Or.inr ⟨_, rfl, by assumption⟩)

theorem processLine_done_le {ai : Nat} {l : List Char} {acc : AccState}
    (h : acc.done = true) : (processLine ai l acc).done = true := by
  rcases processLine_cases ai l acc with hc | hc | ⟨t, hc, _⟩ <;> rw [hc] <;> simp [h]

/-- A data frame whose payload is not `[DONE]` and fails to parse is
skipped: the accumulator is untouched. -/
theorem processLine_skip_parse_fail {ai : Nat} {l : List Char} {acc : AccState}
    (hnd : stripData (jsTrim l) ≠ doneMark)
    (hparse : Json.parse (stripData (jsTrim l)) = none) :
    processLine ai l acc = acc := by
  rw [processLine]
  dsimp only
  by_cases h1 : (jsTrim l).isEmpty
  · rw [if_pos h1]
  · rw [if_neg h1]
    by_cases h2 : dataMark.isPrefixOf (jsTrim l)
    · rw [if_pos h2, if_neg hnd, hparse]
    · rw [if_neg h2]

theorem splitLine_decomp {b l r : List Char} (h : splitLine b = some (l, r)) :
    b = l ++ '\n' :: r := by
  induction b generalizing l r with
  | nil => simp [splitLine] at h
  | cons c cs ih =>
    by_cases hc : c = '\n'
    · rw [splitLine, if_pos hc] at h
      cases h
      rw [hc]
      rfl
    · rw [splitLine, if_neg hc] at h
      cases hp : splitLine cs with
      | none => rw [hp] at h; exact Option.noConfusion h
      | some p =>
        rw [hp] at h
        simp only [Option.map_some', Option.some.injEq, Prod.mk.injEq] at h
        obtain ⟨h1, h2⟩ := h
        subst h1; subst h2
        rw [List.cons_append, ← ih (l := p.1) (r := p.2) (by rw [hp])]

/-! ### Lemmas: drain unfolding and invariants -/

theorem drainFuel_none {ai : Nat} (f : Nat) {buffer : List Char} (acc : AccState)
    (h : splitLine buffer = none) : drainFuel ai f buffer acc = (buffer, acc) := by
  cases f with
  | zero => rfl
  | succ f => rw [drainFuel, h]

/-- Any two sufficient fuels drain identically. -/
theorem drainFuel_congr (ai : Nat) : ∀ n f g (buffer : List Char) (acc : AccState),
    buffer.length ≤ n → buffer.length ≤ f → buffer.length ≤ g →
    drainFuel ai f buffer acc = drainFuel ai g buffer acc := by
  intro n
  induction n with
  | zero =>
    intro f g buffer acc hn _ _
    have hb : buffer = [] := List.length_eq_zero.mp (Nat.le_zero.mp hn)
    subst hb
    rw [drainFuel_none f acc (show splitLine [] = none from rfl),
      drainFuel_none g acc (show splitLine [] = none from rfl)]
  | succ n ih =>
    intro f g buffer acc hn hf hg
    cases hsp : splitLine buffer with
    | none => rw [drainFuel_none f acc hsp, drainFuel_none g acc hsp]
    | some p =>
      obtain ⟨l, r⟩ := p
      have hlen := splitLine_length hsp
      cases f with
      | zero => omega
      | succ f =>
        cases g with
        | zero => omega
        | succ g =>
          rw [drainFuel, drainFuel, hsp]
          dsimp only
          by_cases hd : (processLine ai l acc).done
          · rw [if_pos hd, if_pos hd]
          · rw [if_neg hd, if_neg hd]
            exact ih f g r _ (by omega) (by omega) (by omega)

theorem drain_eq_none {ai : Nat} {buffer : List Char} {acc : AccState}
    (h : splitLine buffer = none) : drain ai buffer acc = (buffer, acc) := by
  rw [drain]
  exact drainFuel_none _ _ h

theorem drain_eq_some {ai : Nat} {buffer l r : List Char} {acc : AccState}
    (h : splitLine buffer = some (l, r)) :
    drain ai buffer acc =
      if (processLine ai l acc).done then (r, processLine ai l acc)
      else drain ai r (processLine ai l acc) := by
  have hlen := splitLine_length h
  rw [drain, show buffer.length = (l.length + r.length) + 1 from hlen.symm,
    drainFuel, h]
  dsimp only
  by_cases hd : (processLine ai l acc).done
  · rw [if_pos hd, if_pos hd]
  · rw [if_neg hd, if_neg hd, drain]
    exact drainFuel_congr ai (l.length + r.length) _ _ r _ (by omega) (by omega) le_rfl

/-- Induction along the line-draining recursion. -/
theorem drain_induct (ai : Nat) (motive : List Char → AccState → Prop)
    (case1 : ∀ buffer acc, splitLine buffer = none → motive buffer acc)
    (case2 : ∀ buffer acc line rest, splitLine buffer = some (line, rest) →
      (processLine ai line acc).done = true → motive buffer acc)
    (case3 : ∀ buffer acc line rest, splitLine buffer = some (line, rest) →
      ¬(processLine ai line acc).done = true →
      motive rest (processLine ai line acc) → motive buffer acc) :
    ∀ buffer acc, motive buffer acc := by
  have H : ∀ n (buffer : List Char) (acc : AccState), buffer.length ≤ n →
      motive buffer acc := by
    intro n
    induction n with
    | zero =>
      intro buffer acc hn
      have hb : buffer = [] := List.length_eq_zero.mp (Nat.le_zero.mp hn)
      subst hb
      exact case1 [] acc (show splitLine [] = none from rfl)
    | succ n ih =>
      intro buffer acc hn
      cases hsp : splitLine buffer with
      | none => exact case1 _ _ hsp
      | some p =>
        obtain ⟨l, r⟩ := p
        have hlen := splitLine_length hsp
        by_cases hd : (processLine ai l acc).done
        · exact case2 _ _ _ _ hsp hd
        · exact case3 _ _ _ _ hsp hd (ih r _ (by omega))
  exact fun buffer acc => H buffer.length buffer acc le_rfl

theorem appendAt_length (ai : Nat) (t : List Char) (ms : List Message) :
    (appendAt ai t ms).length = ms.length := by
  rw [appendAt]
  cases h : ms.get? ai with
  | none => rfl
  | some m =>
    dsimp only
    split
    · exact List.length_set ms ai _
    · rfl

theorem appendAt_get {ms : List Message} {ai : Nat} {c : List Char}
    (h : ms.get? ai = some ⟨Role.assistant, c⟩) (t : List Char) :
    (appendAt ai t ms).get? ai = some ⟨Role.assistant, c ++ t⟩ := by
  have hlt : ai < ms.length := by
    by_contra hge
    rw [List.get?_eq_getElem?, List.getElem?_eq_none (by omega)] at h
    exact Option.noConfusion h
  rw [appendAt, h]
  dsimp only
  rw [if_pos rfl, List.get?_eq_getElem?, List.getElem?_set_self (by simpa using hlt)]
  by_cases hc : c.isEmpty
  · rw [List.isEmpty_iff] at hc
    subst hc
    simp
  · simp [hc]

theorem processLine_msgs_length (ai : Nat) (l : List Char) (acc : AccState) :
    (processLine ai l acc).messages.length = acc.messages.length := by
  rcases processLine_cases ai l acc with hc | hc | ⟨t, hc, _⟩ <;> rw [hc]
  all_goals first
    | rfl
    | exact appendAt_length ai t acc.messages

theorem drain_msgs_length (ai : Nat) (buffer : List Char) (acc : AccState) :
    (drain ai buffer acc).2.messages.length = acc.messages.length := by
  induction buffer, acc using drain_induct ai with
  | case1 buffer acc hsplit => rw [drain_eq_none hsplit]
  | case2 buffer acc line rest hsplit hdone =>
    have hd : (processLine ai line acc).done = true := hdone
    rw [drain_eq_some hsplit, if_pos hd]
    exact processLine_msgs_length ai line acc
  | case3 buffer acc line rest hsplit hdone ih =>
    have hd : ¬(processLine ai line acc).done = true := hdone
    rw [drain_eq_some hsplit, if_neg hd, ih]
    exact processLine_msgs_length ai line acc

/-- Appending input past a drain that did not hit the sentinel continues
where the drain left off. -/
theorem drain_append_not_done (ai : Nat) (buffer : List Char) (acc : AccState) :
    ∀ t2, (drain ai buffer acc).2.done = false →
      drain ai (buffer ++ t2) acc =
        drain ai ((drain ai buffer acc).1 ++ t2) (drain ai buffer acc).2 := by
  induction buffer, acc using drain_induct ai with
  | case1 buffer acc hsplit =>
    intro t2 _
    rw [drain_eq_none hsplit]
  | case2 buffer acc line rest hsplit hdone =>
    intro t2 h
    have hd : (processLine ai line acc).done = true := hdone
    rw [drain_eq_some hsplit, if_pos hd] at h
    rw [hd] at h
    exact Bool.noConfusion h
  | case3 buffer acc line rest hsplit hdone ih =>
    intro t2 h
    have hd : ¬(processLine ai line acc).done = true := hdone
    rw [drain_eq_some hsplit, if_neg hd] at h
    rw [drain_eq_some (splitLine_append_some hsplit), if_neg hd,
        drain_eq_some hsplit, if_neg hd]
    exact ih t2 h

/-- Once a drain hit the sentinel, appending input changes only the
abandoned rest of the buffer, not the accumulator. -/
theorem drain_append_done (ai : Nat) (buffer : List Char) (acc : AccState) :
    ∀ t2, acc.done = false → (drain ai buffer acc).2.done = true →
      drain ai (buffer ++ t2) acc =
        ((drain ai buffer acc).1 ++ t2, (drain ai buffer acc).2) := by
  induction buffer, acc using drain_induct ai with
  | case1 buffer acc hsplit =>
    intro t2 h0 h
    rw [drain_eq_none hsplit] at h
    rw [h0] at h
    exact Bool.noConfusion h
  | case2 buffer acc line rest hsplit hdone =>
    intro t2 _ _
    have hd : (processLine ai line acc).done = true := hdone
    rw [drain_eq_some (splitLine_append_some hsplit), if_pos hd,
        drain_eq_some hsplit, if_pos hd]
  | case3 buffer acc line rest hsplit hdone ih =>
    intro t2 h0 h
    have hd : ¬(processLine ai line acc).done = true := hdone
    rw [drain_eq_some hsplit, if_neg hd] at h
    rw [drain_eq_some (splitLine_append_some hsplit), if_neg hd,
        drain_eq_some hsplit, if_neg hd]
    exact ih t2 (by simpa using hd) h

/-- A drain that did not hit the sentinel leaves no newline buffered. -/
theorem drain_rest_no_newline (ai : Nat) (buffer : List Char) (acc : AccState) :
    (drain ai buffer acc).2.done = false → splitLine (drain ai buffer acc).1 = none := by
  induction buffer, acc using drain_induct ai with
  | case1 buffer acc hsplit =>
    intro _
    rw [drain_eq_none hsplit]
    exact hsplit
  | case2 buffer acc line rest hsplit hdone =>
    intro h
    have hd : (processLine ai line acc).done = true := hdone
    rw [drain_eq_some hsplit, if_pos hd] at h
    rw [hd] at h
    exact Bool.noConfusion h
  | case3 buffer acc line rest hsplit hdone ih =>
    intro h
    have hd : ¬(processLine ai line acc).done = true := hdone
    rw [drain_eq_some hsplit, if_neg hd] at h ⊢
    exact ih h

/-- The content of the assistant slot after a drain is its previous
content followed by exactly the delta texts the drain appended to the
event trace, in order. -/
theorem drain_content (ai : Nat) (buffer : List Char) (acc : AccState) :
    ∀ c, acc.messages.get? ai = some ⟨Role.assistant, c⟩ →
      ∃ δ, (drain ai buffer acc).2.events = acc.events ++ δ ∧
        (drain ai buffer acc).2.messages.get? ai = some ⟨Role.assistant, c ++ joinDeltas δ⟩ := by
  have H : ∀ n (buffer : List Char) (acc : AccState), buffer.length ≤ n →
      ∀ c, acc.messages.get? ai = some ⟨Role.assistant, c⟩ →
        ∃ δ, (drain ai buffer acc).2.events = acc.events ++ δ ∧
          (drain ai buffer acc).2.messages.get? ai = some ⟨Role.assistant, c ++ joinDeltas δ⟩ := by
    intro n
    induction n with
    | zero =>
      intro buffer acc hlen c h
      have hb : buffer = [] := List.length_eq_zero.mp (Nat.le_zero.mp hlen)
      subst hb
      rw [drain_eq_none (show splitLine [] = none from rfl)]
      exact ⟨[], by simp, by simpa [joinDeltas] using h⟩
    | succ n ihn =>
      intro buffer acc hlen c h
      cases hsplit : splitLine buffer with
      | none =>
        rw [drain_eq_none hsplit]
        exact ⟨[], by simp, by simpa [joinDeltas] using h⟩
      | some p =>
        obtain ⟨line, rest⟩ := p
        have hlt := splitLine_length hsplit
        rw [drain_eq_some hsplit]
        by_cases hd : (processLine ai line acc).done
        · rw [if_pos hd]
          rcases processLine_cases ai line acc with hc | hc | ⟨t, hc, _⟩ <;> rw [hc]
          · exact ⟨[], by simp, by simpa [joinDeltas] using h⟩
          · exact ⟨[Event.done], by simp, by simpa [joinDeltas, deltaText] using h⟩
          · exact ⟨[Event.contentDelta t], by simp,
              by simpa [joinDeltas, deltaText] using appendAt_get h t⟩
        · rw [if_neg hd]
          rcases processLine_cases ai line acc with hc | hc | ⟨t, hc, _⟩
          · rw [hc]
            exact ihn rest acc (by omega) c h
          · rw [hc] at hd
            simp at hd
          · rw [hc]
            obtain ⟨δ, he, hm⟩ := ihn rest
              { acc with messages := appendAt ai t acc.messages,
                         events := acc.events ++ [Event.contentDelta t] }
              (by omega) (c ++ t) (by simpa using appendAt_get h t)
            refine ⟨Event.contentDelta t :: δ, ?_, ?_⟩
            · simpa using he
            · simpa [joinDeltas, deltaText] using hm
  exact H buffer.length buffer acc le_rfl

/-! ### Lemmas: the event trace is well formed (`Done` closes it) -/

theorem noEventAfterDone_of_all {es : List Event} (h : es.all (fun e => !e.isDone) = true) :
    noEventAfterDone es = true := by
  induction es with
  | nil => rfl
  | cons e rest ih =>
    cases e with
    | contentDelta t =>
      rw [List.all_cons, Bool.and_eq_true] at h
      exact ih h.2
    | done =>
      rw [List.all_cons] at h
      simp [Event.isDone] at h

theorem noEventAfterDone_concat_done {es : List Event}
    (h : es.all (fun e => !e.isDone) = true) :
    noEventAfterDone (es ++ [Event.done]) = true := by
  induction es with
  | nil => rfl
  | cons e rest ih =>
    cases e with
    | contentDelta t =>
      rw [List.all_cons, Bool.and_eq_true] at h
      exact ih h.2
    | done =>
      rw [List.all_cons] at h
      simp [Event.isDone] at h

theorem accOk_processLine (ai : Nat) (l : List Char) {acc : AccState}
    (h0 : acc.done = false) (h : accOk acc = true) :
    accOk (processLine ai l acc) = true := by
  have hall : acc.events.all (fun e => !e.isDone) = true := by
    rw [accOk, h0] at h
    simpa using h
  rcases processLine_cases ai l acc with hc | hc | ⟨t, hc, _⟩ <;> rw [hc]
  · exact h
  · rw [accOk]
    simp only [if_true]
    rw [Bool.and_eq_true]
    exact ⟨by simp [List.getLast?_concat], noEventAfterDone_concat_done hall⟩
  · rw [accOk]
    simp only [h0, Bool.false_eq_true, if_false, List.all_append, Bool.and_eq_true]
    exact ⟨hall, by simp [Event.isDone]⟩

theorem drain_accOk (ai : Nat) (buffer : List Char) (acc : AccState) :
    acc.done = false → accOk acc = true → accOk (drain ai buffer acc).2 = true := by
  induction buffer, acc using drain_induct ai with
  | case1 buffer acc hsplit =>
    intro _ h
    rw [drain_eq_none hsplit]
    exact h
  | case2 buffer acc line rest hsplit hdone =>
    intro h0 h
    have hd : (processLine ai line acc).done = true := hdone
    rw [drain_eq_some hsplit, if_pos hd]
    exact accOk_processLine ai line h0 h
  | case3 buffer acc line rest hsplit hdone ih =>
    intro h0 h
    have hd : ¬(processLine ai line acc).done = true := hdone
    rw [drain_eq_some hsplit, if_neg hd]
    exact ih (by simpa using hd) (accOk_processLine ai line h0 h)

/-! ### Lemmas: irrelevant frames and unterminated leftovers -/

theorem splitLine_none_both {b f : List Char} (hb : splitLine b = none)
    (hf : splitLine f = none) : splitLine (b ++ f) = none := by
  rw [splitLine_none_append hb, hf]
  rfl

/-- Inserting one whole line that every accumulator ignores anywhere
between the lines of a buffer does not change the drained accumulator. -/
theorem drain_insert_skip (ai : Nat) (A : List Char) (acc : AccState) :
    ∀ l B, acc.done = false → (A = [] ∨ A.getLast? = some '\n') →
      splitLine l = none → (∀ a : AccState, processLine ai l a = a) →
      (drain ai (A ++ (l ++ '\n' :: B)) acc).2 = (drain ai (A ++ B) acc).2 := by
  induction A, acc using drain_induct ai with
  | case1 A acc hsplit =>
    intro l B h0 hA hl hskip
    have hA0 : A = [] := by
      rcases hA with h | h
      · exact h
      · exfalso
        obtain ⟨hne, he⟩ := List.mem_getLast?_eq_getLast h
        exact splitLine_none_notMem hsplit (he ▸ List.getLast_mem hne)
    subst hA0
    simp only [List.nil_append]
    rw [drain_eq_some (splitLine_line_append hl), hskip acc, if_neg (by simp [h0])]
  | case2 A acc line rest hsplit hdone =>
    intro l B h0 hA hl hskip
    have hd : (processLine ai line acc).done = true := hdone
    rw [drain_eq_some (splitLine_append_some hsplit), if_pos hd,
        drain_eq_some (splitLine_append_some hsplit), if_pos hd]
  | case3 A acc line rest hsplit hdone ih =>
    intro l B h0 hA hl hskip
    have hd : ¬(processLine ai line acc).done = true := hdone
    rw [drain_eq_some (splitLine_append_some hsplit), if_neg hd,
        drain_eq_some (splitLine_append_some hsplit), if_neg hd]
    have hrest : rest = [] ∨ rest.getLast? = some '\n' := by
      rcases hA with h | h
      · rw [h] at hsplit
        exact Option.noConfusion hsplit
      · by_cases hr : rest = []
        · exact Or.inl hr
        · refine Or.inr ?_
          have hdec := splitLine_decomp hsplit
          rw [hdec, List.getLast?_append_cons] at h
          rw [show ('\n' :: rest : List Char) = ['\n'] ++ rest from rfl,
              List.getLast?_append_of_ne_nil _ hr] at h
          exact h
    exact ih l B (by simpa using hd) hrest hl hskip

/-- Text with no newline appended after a buffer only ever extends the
trailing partial line, so the drained accumulator is unchanged: an
unterminated final frame is never processed. -/
theorem drain_frag (ai : Nat) (buffer : List Char) (acc : AccState) :
    ∀ frag, splitLine frag = none →
      (drain ai (buffer ++ frag) acc).2 = (drain ai buffer acc).2 := by
  induction buffer, acc using drain_induct ai with
  | case1 buffer acc hsplit =>
    intro frag hf
    rw [drain_eq_none hsplit, drain_eq_none (splitLine_none_both hsplit hf)]
  | case2 buffer acc line rest hsplit hdone =>
    intro frag hf
    have hd : (processLine ai line acc).done = true := hdone
    rw [drain_eq_some (splitLine_append_some hsplit), if_pos hd,
        drain_eq_some hsplit, if_pos hd]
  | case3 buffer acc line rest hsplit hdone ih =>
    intro frag hf
    have hd : ¬(processLine ai line acc).done = true := hdone
    rw [drain_eq_some (splitLine_append_some hsplit), if_neg hd,
        drain_eq_some hsplit, if_neg hd]
    exact ih frag hf

theorem joinDeltas_append (a b : List Event) :
    joinDeltas (a ++ b) = joinDeltas a ++ joinDeltas b := by
  simp [joinDeltas]

/-! ### Lemmas: streaming UTF-8 decoding is a byte fold -/

theorem utf8_foldl_out (bs : List Nat) (s : Utf8State) (out : List Char) :
    bs.foldl (fun p b => let q := procByte p.1 b; (q.1, p.2 ++ q.2)) (s, out)
      = ((utf8DecodeFrom s bs).1, out ++ (utf8DecodeFrom s bs).2) := by
  induction bs generalizing s out with
  | nil => simp [utf8DecodeFrom]
  | cons b bs ih =>
    rw [List.foldl_cons]
    show List.foldl _ ((procByte s b).1, out ++ (procByte s b).2) bs = _
    rw [ih]
    have hrhs : utf8DecodeFrom s (b :: bs) =
        ((utf8DecodeFrom (procByte s b).1 bs).1,
         (procByte s b).2 ++ (utf8DecodeFrom (procByte s b).1 bs).2) := by
      rw [utf8DecodeFrom, List.foldl_cons]
      show List.foldl _ ((procByte s b).1, [] ++ (procByte s b).2) bs = _
      rw [List.nil_append, ih]
    rw [hrhs]
    simp [List.append_assoc]

theorem utf8DecodeFrom_append (s : Utf8State) (b1 b2 : List Nat) :
    utf8DecodeFrom s (b1 ++ b2) =
      ((utf8DecodeFrom (utf8DecodeFrom s b1).1 b2).1,
       (utf8DecodeFrom s b1).2 ++ (utf8DecodeFrom (utf8DecodeFrom s b1).1 b2).2) := by
  rw [utf8DecodeFrom, List.foldl_append]
  rw [show (b1.foldl (fun p b => let q := procByte p.1 b; (q.1, p.2 ++ q.2))
        ((s, []) : Utf8State × List Char)) = utf8DecodeFrom s b1 from rfl]
  have : (utf8DecodeFrom s b1) = ((utf8DecodeFrom s b1).1, (utf8DecodeFrom s b1).2) := rfl
  rw [this, utf8_foldl_out]

/-! ### Lemmas: the outer read loop -/

theorem runStream_done {ai : Nat} {ss : StreamState} (chunks : List (List Nat))
    (h : ss.acc.done = true) : runStream ai chunks ss = ss := by
  induction chunks with
  | nil => rfl
  | cons c cs ih =>
    rw [runStream, List.foldl_cons, if_pos h]
    exact ih

/-- Chunk-boundary invariance of the whole loop: feeding the chunks one
by one leaves the same accumulator as feeding all their bytes at once
(entered with no pending line and the sentinel not yet seen). -/
theorem runStream_join (ai : Nat) (chunks : List (List Nat)) (ss : StreamState) :
    ss.acc.done = false → splitLine ss.buffer = none →
      (runStream ai chunks ss).acc = (streamStep ai ss chunks.flatten).acc := by
  induction chunks generalizing ss with
  | nil =>
    intro h0 hb
    rw [show (List.flatten ([] : List (List Nat))) = [] from rfl]
    rw [runStream]
    rw [streamStep]
    show ss.acc = (drain ai (ss.buffer ++ (utf8DecodeFrom ss.dec []).2) ss.acc).2
    rw [show (utf8DecodeFrom ss.dec []).2 = [] from rfl, List.append_nil,
      drain_eq_none hb]
  | cons c cs ih =>
    intro h0 hb
    rw [runStream, List.foldl_cons, if_neg (by simp [h0])]
    rw [show (List.foldl (fun s c => if s.acc.done then s else streamStep ai s c)
      (streamStep ai ss c) cs) = runStream ai cs (streamStep ai ss c) from rfl]
    have hdec := utf8DecodeFrom_append ss.dec c cs.flatten
    have hstep2 : (streamStep ai ss (List.flatten (c :: cs))).acc =
        (drain ai ((ss.buffer ++ (utf8DecodeFrom ss.dec c).2)
          ++ (utf8DecodeFrom (utf8DecodeFrom ss.dec c).1 cs.flatten).2) ss.acc).2 := by
      rw [streamStep]
      show (drain ai (ss.buffer ++ (utf8DecodeFrom ss.dec (List.flatten (c :: cs))).2) ss.acc).2 = _
      rw [show List.flatten (c :: cs) = c ++ cs.flatten from rfl, hdec]
      rw [List.append_assoc]
    by_cases hd : (streamStep ai ss c).acc.done
    · rw [runStream_done cs hd, hstep2]
      have hdd : (drain ai (ss.buffer ++ (utf8DecodeFrom ss.dec c).2) ss.acc).2.done = true := hd
      rw [drain_append_done ai _ ss.acc _ h0 hdd]
      rfl
    · have hdf : (streamStep ai ss c).acc.done = false := by simpa using hd
      rw [ih (streamStep ai ss c) hdf (drain_rest_no_newline ai _ _ hdf), hstep2]
      have hdd : (drain ai (ss.buffer ++ (utf8DecodeFrom ss.dec c).2) ss.acc).2.done = false := by
        simpa using hd
      rw [drain_append_not_done ai _ ss.acc _ hdd]
      rw [streamStep]
      rfl

/-- The slot-content invariant lifted to the loop. -/
theorem runStream_content (ai : Nat) (chunks : List (List Nat)) (ss : StreamState) :
    ∀ c, ss.acc.messages.get? ai = some ⟨Role.assistant, c⟩ →
      ∃ δ, (runStream ai chunks ss).acc.events = ss.acc.events ++ δ ∧
        (runStream ai chunks ss).acc.messages.get? ai =
          some ⟨Role.assistant, c ++ joinDeltas δ⟩ := by
  induction chunks generalizing ss with
  | nil =>
    intro c h
    exact ⟨[], by rw [runStream]; simp, by rw [runStream]; simpa [joinDeltas] using h⟩
  | cons ck cs ih =>
    intro c h
    rw [runStream, List.foldl_cons]
    by_cases hd : ss.acc.done
    · rw [if_pos hd]
      exact ih ss c h
    · rw [if_neg hd]
      obtain ⟨δ1, he1, hm1⟩ :=
        drain_content ai (ss.buffer ++ (utf8DecodeFrom ss.dec ck).2) ss.acc c h
      obtain ⟨δ2, he2, hm2⟩ := ih (streamStep ai ss ck) (c ++ joinDeltas δ1) hm1
      refine ⟨δ1 ++ δ2, ?_, ?_⟩
      · rw [show (List.foldl (fun s c => if s.acc.done then s else streamStep ai s c)
          (streamStep ai ss ck) cs) = runStream ai cs (streamStep ai ss ck) from rfl,
          he2]
        rw [show (streamStep ai ss ck).acc.events =
          (drain ai (ss.buffer ++ (utf8DecodeFrom ss.dec ck).2) ss.acc).2.events from rfl, he1,
          List.append_assoc]
      · rw [show (List.foldl (fun s c => if s.acc.done then s else streamStep ai s c)
          (streamStep ai ss ck) cs) = runStream ai cs (streamStep ai ss ck) from rfl,
          hm2, joinDeltas_append, List.append_assoc]

/-- The trace invariant lifted to the loop. -/
theorem runStream_accOk (ai : Nat) (chunks : List (List Nat)) (ss : StreamState)
    (h0 : ss.acc.done = false) (h : accOk ss.acc = true) :
    accOk (runStream ai chunks ss).acc = true := by
  induction chunks generalizing ss with
  | nil => exact h
  | cons ck cs ih =>
    rw [runStream, List.foldl_cons, if_neg (by simp [h0])]
    rw [show (List.foldl (fun s c => if s.acc.done then s else streamStep ai s c)
      (streamStep ai ss ck) cs) = runStream ai cs (streamStep ai ss ck) from rfl]
    have hstep : accOk (streamStep ai ss ck).acc = true :=
      drain_accOk ai (ss.buffer ++ (utf8DecodeFrom ss.dec ck).2) ss.acc h0 h
    by_cases hd : (streamStep ai ss ck).acc.done
    · rw [runStream_done cs hd]
      exact hstep
    · exact ih (streamStep ai ss ck) (by simpa using hd) hstep

/-- Conversation length is preserved by the loop. -/
theorem runStream_msgs_length (ai : Nat) (chunks : List (List Nat)) (ss : StreamState) :
    (runStream ai chunks ss).acc.messages.length = ss.acc.messages.length := by
  induction chunks generalizing ss with
  | nil => rfl
  | cons ck cs ih =>
    rw [runStream, List.foldl_cons]
    by_cases hd : ss.acc.done
    · rw [if_pos hd]
      exact ih ss
    · rw [if_neg hd]
      rw [show (List.foldl (fun s c => if s.acc.done then s else streamStep ai s c)
        (streamStep ai ss ck) cs) = runStream ai cs (streamStep ai ss ck) from rfl, ih]
      exact drain_msgs_length ai _ ss.acc

/-! ### Lemmas: the send wrapper -/

theorem setContentAt_length (idx : Nat) (txt : List Char) (ms : List Message) :
    (setContentAt idx txt ms).length = ms.length := by
  simp [setContentAt]

theorem setContentAt_get {ms : List Message} {idx : Nat} {m : Message}
    (h : ms.get? idx = some m) (txt : List Char) :
    (setContentAt idx txt ms).get? idx = some ⟨m.role, txt⟩ := by
  rw [setContentAt, List.get?_eq_getElem?, List.getElem?_mapIdx,
    ← List.get?_eq_getElem?, h]
  simp

/-- The empty assistant placeholder sits at index `|messages| + 1` right
after the two appends. -/
theorem slot_init (ms0 : List Message) (u a : Message) :
    ((ms0 ++ [u]) ++ [a]).get? (ms0.length + 1) = some a := by
  rw [List.get?_eq_getElem?,
    show ms0.length + 1 = (ms0 ++ [u]).length by simp]
  exact List.getElem?_concat_length _ a

/-! ### The claims -/

/-- Claim **C5.**  If the trimmed input text is empty or the credential is
empty, the send operation is a no-op: no request is issued and no state
is mutated (Conversation, busy flag and input unchanged). -/
theorem claim_c5_noop (st : SendState) (resp : Resp)
    (h : (jsTrim st.input).isEmpty = true ∨ st.apiKey.isEmpty = true) :
    sendMessage st resp =
      { messages := st.messages, input := st.input, busy := st.busy,
        requestIssued := false, busySet := false, events := [] } := by
  rw [sendMessage]
  rcases h with h | h <;> rw [if_pos (by simp [h])]

theorem claim_c5_noop_witness :
    sendMessage ⟨"   ".toList, "k".toList, [⟨Role.system, defaultSystemPromptText⟩], false⟩
        (Resp.httpError 500 ("boom".toList)) =
      { messages := [⟨Role.system, defaultSystemPromptText⟩], input := "   ".toList,
        busy := false, requestIssued := false, busySet := false, events := [] } :=
  claim_c5_noop _ _ (Or.inl (by decide))

/-- Claim **C6.**  Whenever the preconditions pass, the busy flag is set for
the operation and is false again on every exit path (normal completion,
the no-body fallback, and every failure). -/
theorem claim_c6_busy (st : SendState) (resp : Resp)
    (h1 : ¬(jsTrim st.input).isEmpty = true) (h2 : ¬st.apiKey.isEmpty = true) :
    (sendMessage st resp).busy = false ∧ (sendMessage st resp).busySet = true := by
  rw [sendMessage, if_neg (by simp [h1, h2])]
  cases resp with
  | netError e => exact ⟨rfl, rfl⟩
  | httpError status bodyText => exact ⟨rfl, rfl⟩
  | okStream chunks => exact ⟨rfl, rfl⟩
  | okStreamFail chunks e =>
    dsimp only
    split
    · exact ⟨rfl, rfl⟩
    · exact ⟨rfl, rfl⟩
  | okNoBody payloadText =>
    dsimp only
    cases hp : Json.parse payloadText <;> exact ⟨rfl, rfl⟩

theorem claim_c6_busy_witness :
    (sendMessage ⟨"Hi".toList, "k".toList, [⟨Role.system, defaultSystemPromptText⟩], true⟩
        (Resp.netError ⟨"Failed to fetch".toList, "TypeError: Failed to fetch".toList⟩)).busy = false
    ∧ (sendMessage ⟨"Hi".toList, "k".toList, [⟨Role.system, defaultSystemPromptText⟩], true⟩
        (Resp.netError ⟨"Failed to fetch".toList, "TypeError: Failed to fetch".toList⟩)).busySet = true :=
  claim_c6_busy _ _ (by decide) (by decide)

/-- Claim **C3, as stated, is false**: on an HTTP error with body
`"rate limited"` the pending content is the fixed label followed by
`HTTP 429: rate limited` — the status text stands between the label and
the body, so the content is not the label concatenated with the body;
and the conversation ends two entries longer than before the send (the
user message and the placeholder were appended before the failure). -/
theorem claim_c3_counterexample :
    (sendMessage ⟨"Hi".toList, "k".toList, [⟨Role.system, defaultSystemPromptText⟩], false⟩
        (Resp.httpError 429 ("rate limited".toList))).messages.get? 2 =
      some ⟨Role.assistant, errLabel ++ ("HTTP 429: rate limited".toList)⟩
    ∧ (sendMessage ⟨"Hi".toList, "k".toList, [⟨Role.system, defaultSystemPromptText⟩], false⟩
        (Resp.httpError 429 ("rate limited".toList))).messages.get? 2 ≠
      some ⟨Role.assistant, errLabel ++ ("rate limited".toList)⟩
    ∧ (sendMessage ⟨"Hi".toList, "k".toList, [⟨Role.system, defaultSystemPromptText⟩], false⟩
        (Resp.httpError 429 ("rate limited".toList))).messages.length = 3 := by
  refine ⟨?_, ?_, ?_⟩ <;> decide

/-- Claim **C3 (amended).**  On any failure — non-success HTTP status, network
exception, a fallback payload that fails to parse, or a mid-stream read
failure — the pending slot's content is overwritten with the fixed error
label followed by the failure's message text, which for an HTTP error is
`HTTP <status>: <body>`; the conversation length is the pre-send length
plus the two appended messages (the error overwrite itself changes no
length). -/
theorem claim_c3_error_overwrite (st : SendState)
    (h1 : ¬(jsTrim st.input).isEmpty = true) (h2 : ¬st.apiKey.isEmpty = true) :
    (∀ status bodyText,
      (sendMessage st (Resp.httpError status bodyText)).messages.get?
          (st.messages.length + 1) =
        some ⟨Role.assistant, errLabel ++ httpErrMsg status bodyText⟩
      ∧ (sendMessage st (Resp.httpError status bodyText)).messages.length =
          st.messages.length + 2)
    ∧ (∀ e, (sendMessage st (Resp.netError e)).messages.get? (st.messages.length + 1) =
          some ⟨Role.assistant, errLabel ++ jsErrText e⟩
      ∧ (sendMessage st (Resp.netError e)).messages.length = st.messages.length + 2)
    ∧ (∀ payloadText, Json.parse payloadText = none →
        (sendMessage st (Resp.okNoBody payloadText)).messages.get?
            (st.messages.length + 1) =
          some ⟨Role.assistant, errLabel ++ jsErrText jsonSyntaxError⟩
      ∧ (sendMessage st (Resp.okNoBody payloadText)).messages.length =
          st.messages.length + 2)
    ∧ (∀ chunks e,
        (runStream ((st.messages ++ [(⟨Role.user, jsTrim st.input⟩ : Message)]).length) chunks
          (initialStream ((st.messages ++ [(⟨Role.user, jsTrim st.input⟩ : Message)]) ++
            [(⟨Role.assistant, []⟩ : Message)]))).acc.done = false →
        (sendMessage st (Resp.okStreamFail chunks e)).messages.get?
            (st.messages.length + 1) =
          some ⟨Role.assistant, errLabel ++ jsErrText e⟩
      ∧ (sendMessage st (Resp.okStreamFail chunks e)).messages.length =
          st.messages.length + 2) := by
  have hpre : ¬((jsTrim st.input).isEmpty || st.apiKey.isEmpty) = true := by
    simp [h1, h2]
  have hg := slot_init st.messages ⟨Role.user, jsTrim st.input⟩ ⟨Role.assistant, []⟩
  have hlen : (st.messages ++ [(⟨Role.user, jsTrim st.input⟩ : Message)]).length =
      st.messages.length + 1 := by simp
  refine ⟨?_, ?_, ?_, ?_⟩
  · intro status bodyText
    rw [sendMessage, if_neg hpre]
    dsimp only
    constructor
    · rw [overwriteError, hlen]
      have := setContentAt_get hg
        (errLabel ++ jsErrText ⟨httpErrMsg status bodyText,
          "Error: ".toList ++ httpErrMsg status bodyText⟩)
      simpa [jsErrText, httpErrMsg] using this
    · rw [overwriteError, setContentAt_length]
      simp
  · intro e
    rw [sendMessage, if_neg hpre]
    dsimp only
    constructor
    · rw [overwriteError, hlen]
      exact setContentAt_get hg (errLabel ++ jsErrText e)
    · rw [overwriteError, setContentAt_length]
      simp
  · intro payloadText hp
    rw [sendMessage, if_neg hpre]
    dsimp only
    rw [hp]
    constructor
    · rw [overwriteError, hlen]
      exact setContentAt_get hg (errLabel ++ jsErrText jsonSyntaxError)
    · rw [overwriteError, setContentAt_length]
      simp
  · intro chunks e hdone
    rw [sendMessage, if_neg hpre]
    dsimp only
    rw [if_neg (by rw [hdone]; exact Bool.false_ne_true)]
    have hg' : ((st.messages ++ [(⟨Role.user, jsTrim st.input⟩ : Message)]) ++
          [(⟨Role.assistant, []⟩ : Message)]).get?
        ((st.messages ++ [(⟨Role.user, jsTrim st.input⟩ : Message)]).length) =
        some ⟨Role.assistant, []⟩ := by
      rw [hlen]
      exact hg
    obtain ⟨δ, _, hm⟩ := runStream_content
      ((st.messages ++ [(⟨Role.user, jsTrim st.input⟩ : Message)]).length) chunks
      (initialStream ((st.messages ++ [(⟨Role.user, jsTrim st.input⟩ : Message)]) ++
        [(⟨Role.assistant, []⟩ : Message)])) [] hg'
    constructor
    · rw [overwriteError, ← hlen]
      exact setContentAt_get hm (errLabel ++ jsErrText e)
    · rw [overwriteError, setContentAt_length, runStream_msgs_length]
      simp [initialStream]

theorem claim_c3_error_overwrite_witness :
    (sendMessage ⟨"Hi".toList, "k".toList, [⟨Role.system, defaultSystemPromptText⟩], false⟩
        (Resp.httpError 429 ("rate limited".toList))).messages.get? 2 =
      some ⟨Role.assistant, errLabel ++ httpErrMsg 429 ("rate limited".toList)⟩
    ∧ (sendMessage ⟨"Hi".toList, "k".toList, [⟨Role.system, defaultSystemPromptText⟩], false⟩
        (Resp.httpError 429 ("rate limited".toList))).messages.length = 3 :=
  (claim_c3_error_overwrite
    ⟨"Hi".toList, "k".toList, [⟨Role.system, defaultSystemPromptText⟩], false⟩
    (by decide) (by decide)).1 429 ("rate limited".toList)

/-- Claim **C9.**  With no streamable body and a parsable payload, the whole
payload is parsed once and the pending slot ends up holding the
extracted `choices[0].message.content` string, or the literal
placeholder when extraction yields nothing (absent or null); the
operation then completes (busy cleared, length settled) as after a
`Done`. -/
theorem claim_c9_fallback (st : SendState) (payloadText : List Char) (data : Json)
    (h1 : ¬(jsTrim st.input).isEmpty = true) (h2 : ¬st.apiKey.isEmpty = true)
    (hp : Json.parse payloadText = some data) :
    (∀ s, extractMsgContent data = some (Json.str s) →
      (sendMessage st (Resp.okNoBody payloadText)).messages.get? (st.messages.length + 1) =
        some ⟨Role.assistant, s⟩)
    ∧ ((extractMsgContent data = none ∨ extractMsgContent data = some Json.null) →
      (sendMessage st (Resp.okNoBody payloadText)).messages.get? (st.messages.length + 1) =
        some ⟨Role.assistant, noContentText⟩)
    ∧ (sendMessage st (Resp.okNoBody payloadText)).busy = false
    ∧ (sendMessage st (Resp.okNoBody payloadText)).messages.length =
        st.messages.length + 2 := by
  have hpre : ¬((jsTrim st.input).isEmpty || st.apiKey.isEmpty) = true := by
    simp [h1, h2]
  have hg := slot_init st.messages ⟨Role.user, jsTrim st.input⟩ ⟨Role.assistant, []⟩
  have hlen : (st.messages ++ [(⟨Role.user, jsTrim st.input⟩ : Message)]).length =
      st.messages.length + 1 := by simp
  refine ⟨?_, ?_, ?_, ?_⟩
  · intro str hs
    rw [sendMessage, if_neg hpre]
    dsimp only
    rw [hp]
    dsimp only
    rw [hs, hlen]
    exact setContentAt_get hg (fallbackText (some (Json.str str)))
  · intro hs
    rw [sendMessage, if_neg hpre]
    dsimp only
    rw [hp]
    dsimp only
    rcases hs with hs | hs <;> rw [hs, hlen]
    · exact setContentAt_get hg (fallbackText none)
    · exact setContentAt_get hg (fallbackText (some Json.null))
  · rw [sendMessage, if_neg hpre]
    dsimp only
    rw [hp]
  · rw [sendMessage, if_neg hpre]
    dsimp only
    rw [hp]
    show (setContentAt _ _ _).length = _
    rw [setContentAt_length]
    simp

theorem claim_c9_fallback_witness :
    (sendMessage ⟨"Hi".toList, "k".toList, [⟨Role.system, defaultSystemPromptText⟩], false⟩
        (Resp.okNoBody
          ("\x7b\"choices\":[\x7b\"message\":\x7b\"content\":\"Full\"\x7d\x7d]\x7d".toList))).messages.get? 2 =
      some ⟨Role.assistant, "Full".toList⟩ :=
  (claim_c9_fallback
    ⟨"Hi".toList, "k".toList, [⟨Role.system, defaultSystemPromptText⟩], false⟩
    _
    (Json.objCons ("choices".toList)
      (Json.arrCons
        (Json.objCons ("message".toList)
          (Json.objCons ("content".toList) (Json.str ("Full".toList)) Json.objNil)
          Json.objNil)
        Json.arrNil)
      Json.objNil)
    (by decide) (by decide) (by decide)).1 ("Full".toList) (by decide)

/-- Claim **C8.**  A data frame whose payload parses but whose first choice's
delta content is absent, not a string, or the empty string leaves the
accumulator untouched: no event is emitted and no text is appended. -/
theorem claim_c8_no_content (ai : Nat) (l : List Char) (acc : AccState) (j : Json)
    (hdata : dataMark.isPrefixOf (jsTrim l) = true)
    (hnd : stripData (jsTrim l) ≠ doneMark)
    (hp : Json.parse (stripData (jsTrim l)) = some j)
    (hex : extractDelta j = none ∨ extractDelta j = some []) :
    processLine ai l acc = acc := by
  rw [processLine]
  dsimp only
  by_cases h1 : (jsTrim l).isEmpty
  · rw [if_pos h1]
  · rw [if_neg h1, if_pos hdata, if_neg hnd, hp]
    dsimp only
    rcases hex with he | he
    · rw [he]
    · rw [he]
      rfl

theorem claim_c8_no_content_witness :
    processLine 1 ("data: \x7b\"choices\":[\x7b\"delta\":\x7b\x7d\x7d]\x7d".toList)
        ⟨[⟨Role.user, "Hi".toList⟩, ⟨Role.assistant, []⟩], false, []⟩ =
      ⟨[⟨Role.user, "Hi".toList⟩, ⟨Role.assistant, []⟩], false, []⟩ :=
  claim_c8_no_content 1 _ _
    (Json.objCons ("choices".toList)
      (Json.arrCons (Json.objCons ("delta".toList) Json.objNil Json.objNil) Json.arrNil)
      Json.objNil)
    (by decide) (by decide) (by decide) (Or.inl (by decide))

/-- Claim **C4.**  A whole data-frame line whose payload is not the sentinel
and fails to parse is skipped without effect: draining a buffer with the
frame inserted between its lines leaves the same accumulator as draining
the buffer with the frame removed. -/
theorem claim_c4_malformed_skipped (ai : Nat) (A l B : List Char) (acc : AccState)
    (hacc : acc.done = false)
    (hA : A = [] ∨ A.getLast? = some '\n')
    (hl : splitLine l = none)
    (_hdata : dataMark.isPrefixOf (jsTrim l) = true)
    (hnd : stripData (jsTrim l) ≠ doneMark)
    (hparse : Json.parse (stripData (jsTrim l)) = none) :
    (drain ai (A ++ (l ++ '\n' :: B)) acc).2 = (drain ai (A ++ B) acc).2 :=
  drain_insert_skip ai A acc l B hacc hA hl
    (fun _ => processLine_skip_parse_fail hnd hparse)

theorem claim_c4_malformed_skipped_witness :
    (drain 1 (([] : List Char) ++
        ("data: \x7b\"oops".toList ++ '\n' ::
          "data: \x7b\"choices\":[\x7b\"delta\":\x7b\"content\":\"Hi\"\x7d\x7d]\x7d\n".toList))
      ⟨[⟨Role.assistant, []⟩], false, []⟩).2 =
    (drain 1 (([] : List Char) ++
        "data: \x7b\"choices\":[\x7b\"delta\":\x7b\"content\":\"Hi\"\x7d\x7d]\x7d\n".toList)
      ⟨[⟨Role.assistant, []⟩], false, []⟩).2 :=
  claim_c4_malformed_skipped 1 [] _ _ _ rfl (Or.inl rfl) (by decide) (by decide)
    (by decide) (by decide)

/-- Claim **C10.**  Buffered trailing text not terminated by a newline is never
processed: appending any newline-free fragment (such as a final
well-formed data frame that lacks its terminating newline) to a stream's
text leaves the drained accumulator — events and content — unchanged. -/
theorem claim_c10_trailing_discarded (ai : Nat) (buffer frag : List Char) (acc : AccState)
    (hf : splitLine frag = none) :
    (drain ai (buffer ++ frag) acc).2 = (drain ai buffer acc).2 :=
  drain_frag ai buffer acc frag hf

theorem claim_c10_trailing_discarded_witness :
    (drain 1 (("data: \x7b\"choices\":[\x7b\"delta\":\x7b\"content\":\"A\"\x7d\x7d]\x7d\n".toList) ++
        "data: \x7b\"choices\":[\x7b\"delta\":\x7b\"content\":\"B\"\x7d\x7d]\x7d".toList)
      ⟨[⟨Role.user, []⟩, ⟨Role.assistant, []⟩], false, []⟩).2 =
    (drain 1 ("data: \x7b\"choices\":[\x7b\"delta\":\x7b\"content\":\"A\"\x7d\x7d]\x7d\n".toList)
      ⟨[⟨Role.user, []⟩, ⟨Role.assistant, []⟩], false, []⟩).2 :=
  claim_c10_trailing_discarded 1 _ _ _ (by decide)

/-- Claim **C1.**  Over a streamed response, the final content of the message
at the Pending Assistant Slot is exactly the ordered concatenation of
the delta texts delivered during the send (string concatenation in
arrival order, no reordering or deduplication), as recorded by the
event trace. -/
theorem claim_c1_delta_concat (st : SendState) (chunks : List (List Nat))
    (h1 : ¬(jsTrim st.input).isEmpty = true) (h2 : ¬st.apiKey.isEmpty = true) :
    (sendMessage st (Resp.okStream chunks)).messages.get? (st.messages.length + 1) =
      some ⟨Role.assistant,
        joinDeltas (sendMessage st (Resp.okStream chunks)).events⟩ := by
  have hpre : ¬((jsTrim st.input).isEmpty || st.apiKey.isEmpty) = true := by
    simp [h1, h2]
  have hg := slot_init st.messages ⟨Role.user, jsTrim st.input⟩ ⟨Role.assistant, []⟩
  have hlen : (st.messages ++ [(⟨Role.user, jsTrim st.input⟩ : Message)]).length =
      st.messages.length + 1 := by simp
  rw [sendMessage, if_neg hpre]
  dsimp only
  have hg' : ((st.messages ++ [(⟨Role.user, jsTrim st.input⟩ : Message)]) ++
        [(⟨Role.assistant, []⟩ : Message)]).get?
      ((st.messages ++ [(⟨Role.user, jsTrim st.input⟩ : Message)]).length) =
      some ⟨Role.assistant, []⟩ := by
    rw [hlen]
    exact hg
  obtain ⟨δ, he, hm⟩ := runStream_content
    ((st.messages ++ [(⟨Role.user, jsTrim st.input⟩ : Message)]).length) chunks
    (initialStream ((st.messages ++ [(⟨Role.user, jsTrim st.input⟩ : Message)]) ++
      [(⟨Role.assistant, []⟩ : Message)])) [] hg'
  rw [← hlen, hm, he]
  rw [show (initialStream ((st.messages ++ [(⟨Role.user, jsTrim st.input⟩ : Message)]) ++
      [(⟨Role.assistant, []⟩ : Message)])).acc.events = [] from rfl]
  rw [List.nil_append, List.nil_append]

theorem claim_c1_delta_concat_witness :
    (sendMessage ⟨"Hi".toList, "k".toList, [⟨Role.system, defaultSystemPromptText⟩], false⟩
        (Resp.okStream
          [asciiBytes "data: \x7b\"choices\":[\x7b\"delta\":\x7b\"content\":\"Hel",
           asciiBytes "lo\"\x7d\x7d]\x7d\n\ndata: [DONE]\n"])).messages.get? 2 =
      some ⟨Role.assistant,
        joinDeltas (sendMessage
          ⟨"Hi".toList, "k".toList, [⟨Role.system, defaultSystemPromptText⟩], false⟩
          (Resp.okStream
            [asciiBytes "data: \x7b\"choices\":[\x7b\"delta\":\x7b\"content\":\"Hel",
             asciiBytes "lo\"\x7d\x7d]\x7d\n\ndata: [DONE]\n"])).events⟩ :=
  claim_c1_delta_concat
    ⟨"Hi".toList, "k".toList, [⟨Role.system, defaultSystemPromptText⟩], false⟩
    _ (by decide) (by decide)

/-- Claim **C2.**  Once the decoder extracts a `[DONE]` frame it emits `Done`
and nothing further: in the event trace of any run no event follows
`Done`, and whenever the sentinel flag is set, `Done` closes the trace —
frames after the sentinel, in the same buffered chunk or later ones, are
never consumed. -/
theorem claim_c2_done_halts (ai : Nat) (ms : List Message) (chunks : List (List Nat)) :
    noEventAfterDone (runStream ai chunks (initialStream ms)).acc.events = true
    ∧ ((runStream ai chunks (initialStream ms)).acc.done = true →
      (runStream ai chunks (initialStream ms)).acc.events.getLast? = some Event.done) := by
  have hok := runStream_accOk ai chunks (initialStream ms) rfl (by rfl)
  constructor
  · cases hdone : (runStream ai chunks (initialStream ms)).acc.done
    · rw [accOk, hdone] at hok
      simp only [Bool.false_eq_true, if_false] at hok
      exact noEventAfterDone_of_all hok
    · rw [accOk, hdone, if_pos rfl, Bool.and_eq_true] at hok
      exact hok.2
  · intro hdone
    rw [accOk, hdone, if_pos rfl, Bool.and_eq_true] at hok
    exact of_decide_eq_true hok.1

set_option maxRecDepth 4096 in
theorem claim_c2_done_halts_witness :
    noEventAfterDone (runStream 2 [asciiBytes
        "data: \x7b\"choices\":[\x7b\"delta\":\x7b\"content\":\"He\"\x7d\x7d]\x7d\ndata: [DONE]\ndata: \x7b\"choices\":[\x7b\"delta\":\x7b\"content\":\"X\"\x7d\x7d]\x7d\n"]
      (initialStream [⟨Role.system, []⟩, ⟨Role.user, "Hi".toList⟩,
        ⟨Role.assistant, []⟩])).acc.events = true
    ∧ (runStream 2 [asciiBytes
        "data: \x7b\"choices\":[\x7b\"delta\":\x7b\"content\":\"He\"\x7d\x7d]\x7d\ndata: [DONE]\ndata: \x7b\"choices\":[\x7b\"delta\":\x7b\"content\":\"X\"\x7d\x7d]\x7d\n"]
      (initialStream [⟨Role.system, []⟩, ⟨Role.user, "Hi".toList⟩,
        ⟨Role.assistant, []⟩])).acc.events.getLast? = some Event.done :=
  ⟨(claim_c2_done_halts 2 _ _).1, (claim_c2_done_halts 2 _ _).2 (by decide)⟩

/-- Claim **C7.**  Decoding is invariant under re-chunking of the transport's
byte sequence: delivering any list of byte chunks produces exactly the
same send result as delivering all their bytes as one chunk, including
when the bytes of one UTF-8 character are split across a boundary. -/
theorem claim_c7_rechunk_invariant (st : SendState) (chunks : List (List Nat)) :
    sendMessage st (Resp.okStream chunks) =
      sendMessage st (Resp.okStream [chunks.flatten]) := by
  rw [sendMessage, sendMessage]
  by_cases hpre : ((jsTrim st.input).isEmpty || st.apiKey.isEmpty) = true
  · rw [if_pos hpre, if_pos hpre]
  · rw [if_neg hpre, if_neg hpre]
    dsimp only
    have h1 := runStream_join
      ((st.messages ++ [(⟨Role.user, jsTrim st.input⟩ : Message)]).length) chunks
      (initialStream ((st.messages ++ [(⟨Role.user, jsTrim st.input⟩ : Message)]) ++
        [(⟨Role.assistant, []⟩ : Message)])) rfl rfl
    have h2 := runStream_join
      ((st.messages ++ [(⟨Role.user, jsTrim st.input⟩ : Message)]).length) [chunks.flatten]
      (initialStream ((st.messages ++ [(⟨Role.user, jsTrim st.input⟩ : Message)]) ++
        [(⟨Role.assistant, []⟩ : Message)])) rfl rfl
    rw [show ([chunks.flatten] : List (List Nat)).flatten = chunks.flatten by simp] at h2
    rw [h1, h2]

end VibeChat
